import Mathlib

/-!
Verification of the Playlist-Organizer analysis core (src/backend/logic.py and
src/backend/main.py) against its natural-language specification.

The Python source is shallowly embedded: machine floats are modelled as exact
rationals (`ℚ`), Python dicts as partial maps `String → Option Value`, and the
outcomes of external I/O (HTTP requests, audio decoding) as explicit oracle
parameters.  Each function keeps its source name.
-/

set_option autoImplicit false

/-! ### `normalize_bpm` (logic.py lines 26-35) -/

/-- Python `round(x, 1)` rounds half to even.  `roundHalfEven x` is the integer
nearest to `x`, ties going to the even integer. -/
def roundHalfEven (x : ℚ) : ℤ :=
  if x - ⌊x⌋ < 1/2 then ⌊x⌋
  else if 1/2 < x - ⌊x⌋ then ⌊x⌋ + 1
  else if ⌊x⌋ % 2 = 0 then ⌊x⌋ else ⌊x⌋ + 1

/-- Python `round(float(bpm), 1)`: round to one decimal place. -/
def pyRound1 (x : ℚ) : ℚ := (roundHalfEven (10 * x) : ℚ) / 10

/-- The `while bpm < 90: bpm *= 2` loop.  Requires `0 < b`, which the caller
`normalize_bpm` guarantees (the Python loop would diverge otherwise). -/
def doubleWhileBelow (b : ℚ) (h : 0 < b) : ℚ :=
  if hb : b < 90 then doubleWhileBelow (2 * b) (by positivity) else b
termination_by (⌈(90 : ℚ) / b⌉).toNat
decreasing_by
  have h2 : (90 : ℚ) / (2 * b) = 45 / b := by
    field_simp
    ring
  rw [h2]
  have hpos : (0:ℚ) < 45 / b := by positivity
  have hc1 : (1:ℤ) ≤ ⌈(45:ℚ) / b⌉ := by
    exact_mod_cast Int.ceil_pos.mpr hpos
  have hlt : ⌈(45:ℚ) / b⌉ < ⌈(90:ℚ) / b⌉ := by
    rcases le_or_lt b 45 with hb45 | hb45
    · have : (45:ℚ) / b + 1 ≤ 90 / b := by
        rw [div_add' _ _ _ (ne_of_gt h), div_le_div_iff₀ h h]
        ring_nf
        nlinarith
      calc ⌈(45:ℚ) / b⌉ < ⌈(45:ℚ) / b⌉ + 1 := by omega
        _ = ⌈(45:ℚ) / b + (1:ℤ)⌉ := by rw [Int.ceil_add_int]
        _ ≤ ⌈(90:ℚ) / b⌉ := by
            apply Int.ceil_le_ceil
            push_cast
            linarith
    · have hup : ⌈(45:ℚ) / b⌉ ≤ 1 := by
        apply Int.ceil_le.mpr
        push_cast
        rw [div_le_one h]
        linarith
      have hdn : (1:ℤ) < ⌈(90:ℚ) / b⌉ := by
        apply Int.lt_ceil.mpr
        push_cast
        rw [lt_div_iff₀ h]
        linarith
      omega
  omega

/-- The `while bpm > 180: bpm /= 2` loop. -/
def halveWhileAbove (b : ℚ) : ℚ :=
  if h : 180 < b then halveWhileAbove (b / 2) else b
termination_by (⌈b⌉).toNat
decreasing_by
  have h1 : ⌈b / 2⌉ ≤ ⌈b⌉ - 1 := by
    have : b / 2 ≤ b - 1 := by linarith
    calc ⌈b / 2⌉ ≤ ⌈b - (1:ℤ)⌉ := by
          apply Int.ceil_le_ceil
          push_cast
          linarith
      _ = ⌈b⌉ - 1 := by rw [Int.ceil_sub_int]
  have h2 : (180:ℤ) < ⌈b⌉ := by
    apply Int.lt_ceil.mpr
    push_cast
    linarith
  omega

/-- logic.py `normalize_bpm`: `if not bpm or bpm <= 0: return 0`, then double
below 90, halve above 180, and round to one decimal. -/
def normalize_bpm (bpm : ℚ) : ℚ :=
  if h : bpm ≤ 0 then 0
  else pyRound1 (halveWhileAbove (doubleWhileBelow bpm (not_le.mp h)))

theorem doubleWhileBelow_step {b : ℚ} (h : 0 < b) (hb : b < 90) :
    doubleWhileBelow b h = doubleWhileBelow (2 * b) (by positivity) := by
  rw [doubleWhileBelow]
  simp [hb]

theorem doubleWhileBelow_done {b : ℚ} (h : 0 < b) (hb : ¬ b < 90) :
    doubleWhileBelow b h = b := by
  rw [doubleWhileBelow]
  simp [hb]

theorem halveWhileAbove_step {b : ℚ} (hb : 180 < b) :
    halveWhileAbove b = halveWhileAbove (b / 2) := by
  rw [halveWhileAbove]
  simp [hb]

theorem halveWhileAbove_done {b : ℚ} (hb : ¬ 180 < b) :
    halveWhileAbove b = b := by
  rw [halveWhileAbove]
  simp [hb]

example : normalize_bpm 0 = 0 := by norm_num [normalize_bpm]

example : normalize_bpm 7 = 112 := by
  rw [normalize_bpm, dif_neg (by norm_num),
    doubleWhileBelow_step _ (by norm_num), doubleWhileBelow_step _ (by norm_num),
    doubleWhileBelow_step _ (by norm_num), doubleWhileBelow_step _ (by norm_num),
    doubleWhileBelow_done _ (by norm_num), halveWhileAbove_done (by norm_num)]
  norm_num [pyRound1, roundHalfEven]

theorem doubleWhileBelow_ge (b : ℚ) (h : 0 < b) : 90 ≤ doubleWhileBelow b h := by
  induction b, h using doubleWhileBelow.induct with
  | case1 b h hb ih => rw [doubleWhileBelow_step h hb]; exact ih
  | case2 b h hb => rw [doubleWhileBelow_done h hb]; linarith [not_lt.mp hb]

theorem doubleWhileBelow_lt (b : ℚ) (h : 0 < b) (hlt : b < 90) :
    doubleWhileBelow b h < 180 := by
  induction b, h using doubleWhileBelow.induct with
  | case1 b h hb ih =>
    rw [doubleWhileBelow_step h hb]
    by_cases h2 : 2 * b < 90
    · exact ih h2
    · rw [doubleWhileBelow_done _ h2]; linarith
  | case2 b h hb => exact absurd hlt hb

theorem halveWhileAbove_le_180 (b : ℚ) : halveWhileAbove b ≤ 180 := by
  induction b using halveWhileAbove.induct with
  | case1 b hb ih => rw [halveWhileAbove_step hb]; exact ih
  | case2 b hb => rw [halveWhileAbove_done hb]; linarith [not_lt.mp hb]

theorem halveWhileAbove_ge (b : ℚ) (hb : 90 ≤ b) : 90 ≤ halveWhileAbove b := by
  induction b using halveWhileAbove.induct with
  | case1 b h ih => rw [halveWhileAbove_step h]; exact ih (by linarith)
  | case2 b h => rw [halveWhileAbove_done h]; exact hb

theorem roundHalfEven_ge {n : ℤ} {x : ℚ} (h : (n : ℚ) ≤ x) : n ≤ roundHalfEven x := by
  have hf : n ≤ ⌊x⌋ := Int.le_floor.mpr h
  unfold roundHalfEven
  split_ifs <;> omega

theorem roundHalfEven_le {n : ℤ} {x : ℚ} (h : x ≤ (n : ℚ)) : roundHalfEven x ≤ n := by
  have hf : ⌊x⌋ ≤ n := by
    calc ⌊x⌋ ≤ ⌊(n : ℚ)⌋ := Int.floor_le_floor h
      _ = n := Int.floor_intCast n
  unfold roundHalfEven
  split_ifs with h1 h2 h3
  · exact hf
  all_goals {
    have hlt : (⌊x⌋ : ℚ) < x := by nlinarith [Int.floor_le x, Int.sub_one_lt_floor x]
    have : ⌊x⌋ < n := by exact_mod_cast lt_of_lt_of_le hlt h
    omega }

theorem roundHalfEven_intCast (n : ℤ) : roundHalfEven (n : ℚ) = n := by
  unfold roundHalfEven
  rw [Int.floor_intCast]
  norm_num

theorem pyRound1_mem {x : ℚ} (h90 : 90 ≤ x) (h180 : x ≤ 180) :
    90 ≤ pyRound1 x ∧ pyRound1 x ≤ 180 := by
  unfold pyRound1
  have hge : (900 : ℤ) ≤ roundHalfEven (10 * x) := roundHalfEven_ge (by push_cast; linarith)
  have hle : roundHalfEven (10 * x) ≤ (1800 : ℤ) := roundHalfEven_le (by push_cast; linarith)
  constructor
  · rw [le_div_iff₀ (by norm_num)]
    exact_mod_cast by exact_mod_cast hge
  · rw [div_le_iff₀ (by norm_num)]
    exact_mod_cast by exact_mod_cast hle

theorem normalize_bpm_pos {b : ℚ} (h : 0 < b) :
    90 ≤ normalize_bpm b ∧ normalize_bpm b ≤ 180 := by
  rw [normalize_bpm, dif_neg (not_le.mpr h)]
  have hd : 90 ≤ doubleWhileBelow b (not_le.mp (not_le.mpr h)) := doubleWhileBelow_ge _ _
  exact pyRound1_mem (halveWhileAbove_ge _ hd) (halveWhileAbove_le_180 _)

theorem normalize_bpm_nonpos {b : ℚ} (h : b ≤ 0) : normalize_bpm b = 0 := by
  rw [normalize_bpm, dif_pos h]

theorem normalize_bpm_decimal (b : ℚ) (h : 0 < b) :
    ∃ n : ℤ, normalize_bpm b = (n : ℚ) / 10 := by
  rw [normalize_bpm, dif_neg (not_le.mpr h)]
  exact ⟨_, rfl⟩

theorem normalize_bpm_idem (b : ℚ) :
    normalize_bpm (normalize_bpm b) = normalize_bpm b := by
  by_cases h : b ≤ 0
  · rw [normalize_bpm_nonpos h, normalize_bpm_nonpos le_rfl]
  · have hb : 0 < b := not_le.mp h
    obtain ⟨hr90, hr180⟩ := normalize_bpm_pos hb
    obtain ⟨n, hn⟩ := normalize_bpm_decimal b hb
    set r := normalize_bpm b with hr
    rw [normalize_bpm, dif_neg (by linarith),
      doubleWhileBelow_done _ (by linarith), halveWhileAbove_done (by linarith)]
    rw [pyRound1, hn]
    have h10 : 10 * ((n : ℚ) / 10) = (n : ℚ) := by ring
    rw [h10, roundHalfEven_intCast]

/-! ### `chroma_to_key` (logic.py lines 151-196)

The chromagram is a 12-row matrix (one row per pitch class, one column per
time frame); `np.sum(chroma, axis=1)` sums each row.  `np.corrcoef` divides
the covariance by the product of standard deviations; when either variance is
zero the float result is NaN, and every `NaN > max_corr` comparison is False.
The embedding works in exact rationals: a correlation is represented by the
pair `(S, D)` with value `S / √D`, where `S` is the cross-covariance sum and
`D` the product of the two variance sums, and `D = 0` marks NaN. -/

def sum12 (f : Fin 12 → ℚ) : ℚ := ((List.finRange 12).map f).sum

/-- `np.roll(t, root) i = t ((i - root) mod 12)`. -/
def roll (t : List ℚ) (root : Fin 12) : Fin 12 → ℚ := fun i => t.getD ((i - root) : Fin 12).val 0

def major_template : List ℚ := [1, 0, 1, 0, 1, 1, 0, 1, 0, 1, 0, 1]

def minor_template : List ℚ := [1, 0, 1, 1, 0, 1, 0, 1, 1, 0, 1, 0]

def major_camelot : List String :=
  ["8B", "3B", "10B", "5B", "12B", "7B", "2B", "9B", "4B", "11B", "6B", "1B"]

def minor_camelot : List String :=
  ["5A", "12A", "7A", "2A", "9A", "4A", "11A", "6A", "1A", "8A", "3A", "10A"]

/-- Pearson cross term `12·Σxy − Σx·Σy`. -/
def pearsonS (x y : Fin 12 → ℚ) : ℚ :=
  12 * sum12 (fun i => x i * y i) - sum12 x * sum12 y

/-- Product of the two Pearson variance terms `(12·Σx² − (Σx)²)(12·Σy² − (Σy)²)`;
zero exactly when `np.corrcoef` returns NaN. -/
def pearsonD (x y : Fin 12 → ℚ) : ℚ :=
  (12 * sum12 (fun i => x i * x i) - sum12 x ^ 2) *
    (12 * sum12 (fun i => y i * y i) - sum12 y ^ 2)

/-- Exact comparison `S₁/√D₁ > S₂/√D₂` for `D₁, D₂ > 0`, via sign analysis and
cross-multiplied squares, so that no irrational square root is needed. -/
def corrGT (S1 D1 S2 D2 : ℚ) : Bool :=
  if 0 ≤ S1 then
    (if 0 ≤ S2 then decide (S2 ^ 2 * D1 < S1 ^ 2 * D2) else true)
  else
    (if 0 ≤ S2 then false else decide (S1 ^ 2 * D2 < S2 ^ 2 * D1))

/-- Exact comparison `S/√D > -1` against the loop's initial `max_corr = -1`. -/
def corrGTneg1 (S D : ℚ) : Bool := if 0 ≤ S then true else decide (S ^ 2 < D)

/-- One `corr > max_corr` update.  The accumulator holds `(max_corr, best_key)`
with `none` for the initial numeric `-1`; a NaN correlation (`D = 0`) never
updates, mirroring `NaN > x == False` in numpy. -/
def keyStep (x : Fin 12 → ℚ) (acc : Option (ℚ × ℚ) × String) (y : Fin 12 → ℚ)
    (label : String) : Option (ℚ × ℚ) × String :=
  let S := pearsonS x y
  let D := pearsonD x y
  if D = 0 then acc
  else
    match acc.1 with
    | none => if corrGTneg1 S D then (some (S, D), label) else acc
    | some (S2, D2) => if corrGT S D S2 D2 then (some (S, D), label) else acc

/-- One template's `for root in range(12)` scan. -/
def scanKeys (x : Fin 12 → ℚ) (tmpl : List ℚ) (labels : List String)
    (acc : Option (ℚ × ℚ) × String) : Option (ℚ × ℚ) × String :=
  (List.finRange 12).foldl
    (fun a r => keyStep x a (roll tmpl r) (labels.getD r.val "")) acc

/-- logic.py `chroma_to_key`: sum the chromagram over time, then pick the
best-correlated of the 24 rotated diatonic templates, major roots 0..11 first,
then minor roots 0..11, starting from `max_corr = -1`, `best_key = "Unknown"`. -/
def chroma_to_key (chroma : Fin 12 → List ℚ) : String :=
  let chroma_sum : Fin 12 → ℚ := fun i => (chroma i).sum
  (scanKeys chroma_sum minor_template minor_camelot
    (scanKeys chroma_sum major_template major_camelot (none, "Unknown"))).2

/-- The 24 valid Camelot labels (wheel position 1-12, suffix A or B). -/
def camelotLabels : List String :=
  ["1A", "2A", "3A", "4A", "5A", "6A", "7A", "8A", "9A", "10A", "11A", "12A",
   "1B", "2B", "3B", "4B", "5B", "6B", "7B", "8B", "9B", "10B", "11B", "12B"]

theorem keyStep_snd (x : Fin 12 → ℚ) (acc : Option (ℚ × ℚ) × String)
    (y : Fin 12 → ℚ) (label : String) :
    (keyStep x acc y label).2 = acc.2 ∨ (keyStep x acc y label).2 = label := by
  obtain ⟨o, s⟩ := acc
  unfold keyStep
  cases o <;> dsimp <;> split_ifs <;> simp

theorem foldl_keyStep_mem (x : Fin 12 → ℚ) (tmpl : List ℚ)
    (labels : List String) (S : List String)
    (hlab : ∀ r : Fin 12, labels.getD r.val "" ∈ S) :
    ∀ (l : List (Fin 12)) (acc : Option (ℚ × ℚ) × String), acc.2 ∈ S →
      ((l.foldl (fun a r => keyStep x a (roll tmpl r) (labels.getD r.val "")) acc).2 ∈ S)
  | [], acc, hacc => hacc
  | r :: rs, acc, hacc => by
    apply foldl_keyStep_mem x tmpl labels S hlab rs
    rcases keyStep_snd x acc (roll tmpl r) (labels.getD r.val "") with h | h <;> rw [h]
    · exact hacc
    · exact hlab r

theorem scanKeys_mem (x : Fin 12 → ℚ) (tmpl : List ℚ) (labels : List String)
    (S : List String) (acc : Option (ℚ × ℚ) × String) (hacc : acc.2 ∈ S)
    (hlab : ∀ r : Fin 12, labels.getD r.val "" ∈ S) :
    (scanKeys x tmpl labels acc).2 ∈ S :=
  foldl_keyStep_mem x tmpl labels S hlab _ acc hacc

theorem sum12_zero : sum12 (fun _ => (0:ℚ)) = 0 := by
  simp [sum12]

theorem pearsonD_zero_left (y : Fin 12 → ℚ) : pearsonD (fun _ => 0) y = 0 := by
  have h : (fun i : Fin 12 => (0:ℚ) * 0) = (fun _ : Fin 12 => (0:ℚ)) := by
    funext i
    ring
  unfold pearsonD
  rw [h, sum12_zero]
  ring

theorem keyStep_of_D_eq_zero (x : Fin 12 → ℚ) (acc : Option (ℚ × ℚ) × String)
    (y : Fin 12 → ℚ) (label : String) (h : pearsonD x y = 0) :
    keyStep x acc y label = acc := by
  unfold keyStep
  simp [h]

theorem foldl_id {α β : Type} (f : α → β → α) (h : ∀ a b, f a b = a) :
    ∀ (l : List β) (acc : α), l.foldl f acc = acc
  | [], _ => rfl
  | b :: l, acc => by rw [List.foldl_cons, h acc b]; exact foldl_id f h l acc

theorem scanKeys_zero (tmpl : List ℚ) (labels : List String)
    (acc : Option (ℚ × ℚ) × String) :
    scanKeys (fun _ => 0) tmpl labels acc = acc := by
  unfold scanKeys
  exact foldl_id _ (fun a r => keyStep_of_D_eq_zero _ a _ _ (pearsonD_zero_left _)) _ acc

/-- The all-zero chromagram used as the degenerate profile. -/
def zeroChroma : Fin 12 → List ℚ := fun _ => [0]

theorem chroma_to_key_zero : chroma_to_key zeroChroma = "Unknown" := by
  unfold chroma_to_key
  have hx : (fun i => (zeroChroma i).sum) = (fun _ : Fin 12 => (0:ℚ)) := by
    funext i
    simp [zeroChroma]
  rw [hx]
  show (scanKeys (fun _ => 0) minor_template minor_camelot
    (scanKeys (fun _ => 0) major_template major_camelot (none, "Unknown"))).2 = "Unknown"
  rw [scanKeys_zero, scanKeys_zero]

/-- C1 counterexample: on the all-zero pitch-class profile every one of the 24
correlations is NaN (zero variance), `NaN > max_corr` is always False, and
`chroma_to_key` returns its initial sentinel `"Unknown"`, which is not one of
the 24 Camelot labels — refuting the claim that a degenerate profile still
yields one of the 24 labels. -/
theorem claim_C1_counterexample :
    chroma_to_key zeroChroma = "Unknown" ∧ "Unknown" ∉ camelotLabels :=
  ⟨chroma_to_key_zero, by decide⟩

/-- C1 (amended): `chroma_to_key` is total and, for every 12-bin profile,
returns either one of the 24 valid Camelot labels or the fixed sentinel
`"Unknown"`; a degenerate (all-zero) profile deterministically yields
`"Unknown"`, not a Camelot label. -/
theorem claim_C1_chroma_to_key_total (chroma : Fin 12 → List ℚ) :
    (chroma_to_key chroma = "Unknown" ∨ chroma_to_key chroma ∈ camelotLabels) ∧
    chroma_to_key zeroChroma = "Unknown" := by
  constructor
  · have h : chroma_to_key chroma ∈ "Unknown" :: camelotLabels := by
      unfold chroma_to_key
      apply scanKeys_mem _ _ _ _ _ _ (by decide)
      apply scanKeys_mem _ _ _ _ _ (by decide) (by decide)
    simpa using h
  · exact chroma_to_key_zero

/-- C3: for every BPM input `b > 0`, `normalize_bpm b` lies in `[90, 180]`
(after rounding to one decimal place); for `b = 0` or negative it returns `0`;
and `normalize_bpm` is idempotent: `normalize_bpm (normalize_bpm b) =
normalize_bpm b` for every `b`. -/
theorem claim_C3_normalize_bpm (b : ℚ) :
    (0 < b → 90 ≤ normalize_bpm b ∧ normalize_bpm b ≤ 180) ∧
    (b ≤ 0 → normalize_bpm b = 0) ∧
    normalize_bpm (normalize_bpm b) = normalize_bpm b :=
  ⟨fun h => normalize_bpm_pos h, fun h => normalize_bpm_nonpos h, normalize_bpm_idem b⟩

/-- Witness for C3 at the concrete input `b = 7`. -/
theorem claim_C3_normalize_bpm_witness :
    (0 < (7:ℚ)) ∧ (90 ≤ normalize_bpm 7 ∧ normalize_bpm 7 ≤ 180) ∧
    ((7:ℚ) ≤ 0 → normalize_bpm 7 = 0) ∧
    normalize_bpm (normalize_bpm 7) = normalize_bpm 7 :=
  ⟨by norm_num, (claim_C3_normalize_bpm 7).1 (by norm_num),
    (claim_C3_normalize_bpm 7).2.1, (claim_C3_normalize_bpm 7).2.2⟩

/-! ### Python dicts -/

/-- JSON-ish values stored in track dictionaries. -/
inductive Value where
  | str (s : String)
  | num (q : ℚ)
  | vnull
deriving DecidableEq

/-- A Python dict, seen through its lookup function. -/
def Dict : Type := String → Option Value

/-- `{**d, **ps}` — the literal pairs `ps` override `d`. -/
def dmerge (d : Dict) (ps : List (String × Value)) : Dict :=
  fun k =>
    match ps.lookup k with
    | some v => some v
    | none => d k

theorem lookup_eq_none_of {β : Type} {k : String} :
    ∀ {ps : List (String × β)}, (∀ p ∈ ps, p.1 ≠ k) → List.lookup k ps = none := by
  intro ps h
  induction ps with
  | nil => rfl
  | cons p ps ih =>
    obtain ⟨a, b⟩ := p
    have ha : a ≠ k := h _ (List.mem_cons_self _ _)
    simp only [List.lookup]
    rw [show (k == a) = false from beq_eq_false_iff_ne.mpr (Ne.symm ha)]
    exact ih fun q hq => h q (List.mem_cons_of_mem _ hq)

theorem dmerge_not_mem (d : Dict) (ps : List (String × Value)) (k : String)
    (h : ∀ p ∈ ps, p.1 ≠ k) : dmerge d ps k = d k := by
  unfold dmerge
  rw [lookup_eq_none_of h]

/-! ### `fetch_soundnet` (logic.py lines 37-69) -/

/-- Fields of the SoundNet JSON body read by the code.  `none` means the field
is absent from the response. -/
structure SData where
  tempo : Option ℚ
  camelot : Option String
  energy : Option ℚ

/-- A SoundNet HTTP response: status code plus parsed JSON body. -/
structure SResp where
  status : ℕ
  data : SData

/-- The descriptor dict `{bpm, key, energy, source}` built on success. -/
structure SOut where
  bpm : ℚ
  key : String
  energy : ℚ
  source : String

/-- `camelot if camelot else "?"` — Python truthiness, so an absent or empty
`camelot` both give `"?"`. -/
def camelotOrUnknown : Option String → String
  | some c => if c = "" then "?" else c
  | none => "?"

/-- logic.py `fetch_soundnet`.  The oracle argument is the outcome of the HTTP
request: `none` models an exception (transport error, timeout, JSON parse
failure — all caught by the bare `except`), `some r` a received response. -/
def fetch_soundnet (w : Option SResp) : Option SOut :=
  match w with
  | none => none
  | some r =>
    if r.status = 200 then
      match r.data.tempo with
      | some t =>
        some { bpm := normalize_bpm t
               key := camelotOrUnknown r.data.camelot
               energy := r.data.energy.getD 50
               source := "soundnet" }
      | none => none
    else none

/-- C6: `fetch_soundnet` never raises — every transport/parse/timeout failure
(and every non-200 status) degrades to `none`; a response lacking a tempo
field yields `none`; on success the key is the response's (nonempty) Camelot
value when present and `"?"` when absent, and energy defaults to `50` when the
response omits it. -/
theorem claim_C6_fetch_soundnet (w : Option SResp) :
    (w = none → fetch_soundnet w = none) ∧
    (∀ r, w = some r → r.status ≠ 200 → fetch_soundnet w = none) ∧
    (∀ r, w = some r → r.data.tempo = none → fetch_soundnet w = none) ∧
    (∀ r t, w = some r → r.status = 200 → r.data.tempo = some t →
      ∃ d, fetch_soundnet w = some d ∧
        d.bpm = normalize_bpm t ∧
        (∀ c, r.data.camelot = some c → c ≠ "" → d.key = c) ∧
        (r.data.camelot = none → d.key = "?") ∧
        (r.data.energy = none → d.energy = 50) ∧
        (∀ e, r.data.energy = some e → d.energy = e) ∧
        d.source = "soundnet") := by
  refine ⟨fun hw => by rw [hw]; rfl, fun r hw hst => ?_, fun r hw ht => ?_,
    fun r t hw hst ht => ?_⟩
  · rw [hw]
    show (if r.status = 200 then _ else none) = none
    rw [if_neg hst]
  · rw [hw]
    show (if r.status = 200 then _ else none) = none
    split_ifs with h
    · rw [ht]
    · rfl
  · rw [hw]
    show ∃ d, (if r.status = 200 then _ else none) = some d ∧ _
    rw [if_pos hst, ht]
    refine ⟨_, rfl, rfl, fun c hc hne => ?_, fun hc => ?_, fun he => ?_,
      fun e he => ?_, rfl⟩
    · simp only [hc]
      show (if c = "" then "?" else c) = c
      rw [if_neg hne]
    · simp only [hc]
      rfl
    · simp only [he, Option.getD_none]
    · simp only [he, Option.getD_some]

/-- Witness for C6: a 200 response with tempo 128, camelot `"8A"` and no
energy field yields a descriptor with key `"8A"` and the default energy 50. -/
theorem claim_C6_fetch_soundnet_witness :
    ∃ d, fetch_soundnet (some ⟨200, ⟨some 128, some "8A", none⟩⟩) = some d ∧
      d.bpm = normalize_bpm 128 ∧
      (∀ c, (some "8A" : Option String) = some c → c ≠ "" → d.key = c) ∧
      ((some "8A" : Option String) = none → d.key = "?") ∧
      ((none : Option ℚ) = none → d.energy = 50) ∧
      (∀ e, (none : Option ℚ) = some e → d.energy = e) ∧
      d.source = "soundnet" :=
  (claim_C6_fetch_soundnet (some ⟨200, ⟨some 128, some "8A", none⟩⟩)).2.2.2
    ⟨200, ⟨some 128, some "8A", none⟩⟩ 128 rfl rfl rfl

/-! ### `fetch_preview_url` (logic.py lines 82-148) -/

/-- logic.py `clean_str` (lines 20-24): drop every character outside
`[a-zA-Z0-9 ]`. -/
def clean_str (s : String) : String :=
  String.mk (s.data.filter (fun c => c.isAlphanum || c == ' '))

/-- An iTunes search candidate.  `trackTimeMillis` may be absent
(`result.get('trackTimeMillis', 0)` then reads 0); `previewUrl` is the field
the code returns. -/
structure Cand where
  previewUrl : String
  trackTimeMillis : Option ℚ

/-- Parsed iTunes search body: the `resultCount` field and the `results` list. -/
structure SearchResp where
  resultCount : ℕ
  results : List Cand

/-- Outcome of one iTunes HTTP request: an exception during the request or
JSON parsing, or a response with a status code and body. -/
inductive ROutcome where
  | exn
  | http (status : ℕ) (body : SearchResp)

/-- The requests the loop can issue during one `attempt` iteration: the
primary search and the optional cleaned-title fallback search. -/
structure AttemptW where
  primary : ROutcome
  fallback : ROutcome

/-- Observable result of a `fetch_preview_url` run: the returned value, the
`asyncio.sleep` durations performed (in seconds, in order), and how many
iterations of `for attempt in range(3)` issued a search request. -/
structure FetchOut where
  url : Option String
  sleeps : List ℚ
  attempts : ℕ

/-- Python truthiness of `duration_ms` in `if duration_ms:`: `None` and `0`
are falsy. -/
def durTruthy : Option ℚ → Bool
  | none => false
  | some q => q != 0

/-- Strategy 1/2 inner loop: first candidate whose reported duration is within
`tol` of `dur` (`if abs(itunes_dur - duration_ms) < tol: return previewUrl`). -/
def firstWithinTol (dur tol : ℚ) : List Cand → Option String
  | [] => none
  | r :: rs =>
    if |r.trackTimeMillis.getD 0 - dur| < tol then some r.previewUrl
    else firstWithinTol dur tol rs

/-- The selection block of `fetch_preview_url` (logic.py lines 120-141), run
once a 200 body `data` is in hand: empty `resultCount` returns None, then
strict ±4s match, relaxed ±10s match, then the first result. -/
def select_preview (data : SearchResp) (duration_ms : Option ℚ) : Option String :=
  if data.resultCount = 0 then none
  else
    match (if durTruthy duration_ms then
             firstWithinTol (duration_ms.getD 0) 4000 data.results else none) with
    | some u => some u
    | none =>
      match (if durTruthy duration_ms then
               firstWithinTol (duration_ms.getD 0) 10000 data.results else none) with
      | some u => some u
      | none =>
        match data.results with
        | [] => none
        | r :: _ => some r.previewUrl

/-- The `for attempt in range(3)` retry loop of `fetch_preview_url`.
`w` is the request oracle, `fuel` the remaining iterations, `a` the current
`attempt` index.  Rate-limit statuses 403/429 sleep `2 ** attempt` and retry;
other non-200 statuses return None at once; an exception sleeps 1 second and
retries; a 200 body with no results triggers the cleaned-title fallback search
when the cleaned name differs. -/
def fetchLoop (w : ℕ → AttemptW) (track_name : String) (duration_ms : Option ℚ) :
    ℕ → ℕ → FetchOut
  | 0, _ => ⟨none, [], 0⟩
  | fuel + 1, a =>
    match (w a).primary with
    | .exn =>
      let r := fetchLoop w track_name duration_ms fuel (a + 1)
      ⟨r.url, 1 :: r.sleeps, r.attempts + 1⟩
    | .http st body =>
      if st = 403 ∨ st = 429 then
        let r := fetchLoop w track_name duration_ms fuel (a + 1)
        ⟨r.url, (2 ^ a : ℚ) :: r.sleeps, r.attempts + 1⟩
      else if st ≠ 200 then ⟨none, [], 1⟩
      else if body.resultCount = 0 ∧ clean_str track_name ≠ track_name then
        match (w a).fallback with
        | .exn =>
          let r := fetchLoop w track_name duration_ms fuel (a + 1)
          ⟨r.url, 1 :: r.sleeps, r.attempts + 1⟩
        | .http st2 body2 =>
          ⟨select_preview (if st2 = 200 then body2 else body) duration_ms, [], 1⟩
      else ⟨select_preview body duration_ms, [], 1⟩

/-- logic.py `fetch_preview_url`: three attempts starting at `attempt = 0`.
The artist enters only the free-text query term, which the oracle abstracts. -/
def fetch_preview_url (w : ℕ → AttemptW) (artist track_name : String)
    (duration_ms : Option ℚ) : FetchOut :=
  fetchLoop w track_name duration_ms 3 0

/-- The tiered selection policy as the specification words it: with a
requested duration, the first candidate within 4 s, else the first within
10 s, else the first candidate; with no duration, the first candidate. -/
def select_preview_spec (results : List Cand) : Option ℚ → Option String
  | some d =>
    ((results.find? (fun r => decide (|r.trackTimeMillis.getD 0 - d| < 4000))).map
        Cand.previewUrl).orElse fun _ =>
      ((results.find? (fun r => decide (|r.trackTimeMillis.getD 0 - d| < 10000))).map
          Cand.previewUrl).orElse fun _ =>
        results.head?.map Cand.previewUrl
  | none => results.head?.map Cand.previewUrl

theorem firstWithinTol_eq_find (dur tol : ℚ) :
    ∀ l : List Cand,
      firstWithinTol dur tol l =
        (l.find? (fun r => decide (|r.trackTimeMillis.getD 0 - dur| < tol))).map
          Cand.previewUrl
  | [] => rfl
  | r :: rs => by
    rw [firstWithinTol, List.find?]
    by_cases h : |r.trackTimeMillis.getD 0 - dur| < tol
    · rw [if_pos h]
      simp [h]
    · rw [if_neg h]
      simp only [decide_eq_true_eq] at *
      simp [h, firstWithinTol_eq_find dur tol rs]

theorem select_preview_eq_spec (data : SearchResp) (dur : Option ℚ)
    (hc : data.resultCount ≠ 0)
    (hdur : dur = none ∨ ∃ d, dur = some d ∧ d ≠ 0) :
    select_preview data dur = select_preview_spec data.results dur := by
  rcases hdur with hd | ⟨d, hd, hd0⟩ <;> subst hd
  · rw [select_preview, if_neg hc]
    have hdt : durTruthy none = false := rfl
    rw [hdt]
    simp only [Bool.false_eq_true, if_false]
    rw [select_preview_spec]
    cases data.results with
    | nil => rfl
    | cons r rs => rfl
  · rw [select_preview, if_neg hc]
    have ht : durTruthy (some d) = true := by
      simp [durTruthy, hd0]
    rw [ht]
    simp only [if_pos, Option.getD_some]
    rw [firstWithinTol_eq_find, firstWithinTol_eq_find]
    rw [select_preview_spec]
    cases h4 : data.results.find? (fun r => decide (|r.trackTimeMillis.getD 0 - d| < 4000)) with
    | some u => rfl
    | none =>
      cases h10 : data.results.find? (fun r => decide (|r.trackTimeMillis.getD 0 - d| < 10000)) with
      | some u => rfl
      | none =>
        cases data.results with
        | nil => rfl
        | cons r rs => rfl

/-- C7: when the first attempt's search returns a 200 body with a nonzero
result count and a non-empty candidate list, `fetch_preview_url` returns
exactly the tier-selected preview URL: with a (nonzero) requested duration the
first candidate within 4 s, else the first within 10 s, else the first
candidate; with no requested duration, the first candidate directly. -/
theorem claim_C7_preview_tiering (w : ℕ → AttemptW) (artist track_name : String)
    (dur : Option ℚ) (body : SearchResp)
    (hw : (w 0).primary = ROutcome.http 200 body)
    (hc : body.resultCount ≠ 0)
    (hne : body.results ≠ [])
    (hdur : dur = none ∨ ∃ d, dur = some d ∧ d ≠ 0) :
    (fetch_preview_url w artist track_name dur).url =
      select_preview_spec body.results dur := by
  rw [fetch_preview_url]
  show (fetchLoop w track_name dur (2 + 1) 0).url = _
  rw [fetchLoop, hw]
  dsimp only
  rw [if_neg (by norm_num), if_neg (by norm_num), if_neg (by simp [hc])]
  exact select_preview_eq_spec body dur hc hdur

/-- Witness for C7, covering the claim's concrete scenarios.  Requested
duration 200000 ms; candidates at Δ = 9000 ms (`"u9"`) and Δ = 3500 ms
(`"u35"`): tier 1 selects `"u35"` even though the Δ = 9000 candidate comes
first; with only the Δ = 9000 candidate, tier 2 selects it; with no duration,
the first candidate is selected directly. -/
theorem claim_C7_preview_tiering_witness :
    (fetch_preview_url (fun _ => ⟨ROutcome.http 200
        ⟨2, [⟨"u9", some 209000⟩, ⟨"u35", some 203500⟩]⟩, ROutcome.exn⟩)
        "a" "t" (some 200000)).url = some "u35" ∧
    (fetch_preview_url (fun _ => ⟨ROutcome.http 200
        ⟨1, [⟨"u9", some 209000⟩]⟩, ROutcome.exn⟩)
        "a" "t" (some 200000)).url = some "u9" ∧
    (fetch_preview_url (fun _ => ⟨ROutcome.http 200
        ⟨2, [⟨"u9", some 209000⟩, ⟨"u35", some 203500⟩]⟩, ROutcome.exn⟩)
        "a" "t" none).url = some "u9" := by
  refine ⟨?_, ?_, ?_⟩
  · rw [claim_C7_preview_tiering _ "a" "t" _ _ rfl (by norm_num)
      (by simp) (Or.inr ⟨200000, rfl, by norm_num⟩)]
    rw [select_preview_spec]
    norm_num [List.find?]
  · rw [claim_C7_preview_tiering _ "a" "t" _ _ rfl (by norm_num)
      (by simp) (Or.inr ⟨200000, rfl, by norm_num⟩)]
    rw [select_preview_spec]
    norm_num [List.find?]
  · rw [claim_C7_preview_tiering _ "a" "t" _ _ rfl (by norm_num)
      (by simp) (Or.inl rfl)]
    rfl

/-- The sleep performed after a transient attempt outcome at index `a`:
1 second after an exception, `2 ^ a` seconds after a rate-limit response. -/
def sleepFor : ROutcome → ℕ → ℚ
  | .exn, _ => 1
  | .http _ _, a => 2 ^ a

/-- A transient outcome: an exception, or a rate-limit (403/429) response. -/
def transient (o : ROutcome) : Prop :=
  o = ROutcome.exn ∨ ∃ st body, o = ROutcome.http st body ∧ (st = 403 ∨ st = 429)

theorem fetchLoop_transient (w : ℕ → AttemptW) (track_name : String)
    (dur : Option ℚ) (fuel a : ℕ) (h : transient (w a).primary) :
    fetchLoop w track_name dur (fuel + 1) a =
      ⟨(fetchLoop w track_name dur fuel (a + 1)).url,
        sleepFor (w a).primary a :: (fetchLoop w track_name dur fuel (a + 1)).sleeps,
        (fetchLoop w track_name dur fuel (a + 1)).attempts + 1⟩ := by
  rcases h with h | ⟨st, body, h, hst⟩ <;> rw [fetchLoop, h] <;> dsimp only [sleepFor]
  rw [if_pos (by rcases hst with h' | h' <;> [left; right] <;> rw [h'])]

/-- C8: when every attempt's search request fails transiently (rate-limit
response or exception), `fetch_preview_url` makes exactly three attempts,
sleeping after each one — `2 ^ attempt` seconds (1 s, 2 s, 4 s: exponential
with base 2) after a rate limit, 1 second after any other transient error —
and then returns `None` without raising. -/
theorem claim_C8_retry_exhaustion (w : ℕ → AttemptW) (artist track_name : String)
    (dur : Option ℚ)
    (htrans : ∀ i, i < 3 → transient (w i).primary) :
    (fetch_preview_url w artist track_name dur).url = none ∧
    (fetch_preview_url w artist track_name dur).attempts = 3 ∧
    (fetch_preview_url w artist track_name dur).sleeps =
      [sleepFor (w 0).primary 0, sleepFor (w 1).primary 1, sleepFor (w 2).primary 2] := by
  have h0 := htrans 0 (by norm_num)
  have h1 := htrans 1 (by norm_num)
  have h2 := htrans 2 (by norm_num)
  rw [fetch_preview_url]
  show (fetchLoop w track_name dur (2 + 1) 0).url = none ∧ _
  rw [fetchLoop_transient w track_name dur 2 0 h0]
  show ((fetchLoop w track_name dur (1 + 1) 1).url = none ∧ _) 
  rw [fetchLoop_transient w track_name dur 1 1 h1]
  show ((fetchLoop w track_name dur (0 + 1) 2).url = none ∧ _)
  rw [fetchLoop_transient w track_name dur 0 2 h2]
  exact ⟨rfl, rfl, rfl⟩

/-- Witness for C8: three consecutive 429 rate-limit responses give `None`,
three attempts, and back-off sleeps of exactly 1, 2 and 4 seconds. -/
theorem claim_C8_retry_exhaustion_witness :
    (fetch_preview_url (fun _ => ⟨ROutcome.http 429 ⟨0, []⟩, ROutcome.exn⟩)
        "a" "t" none).url = none ∧
    (fetch_preview_url (fun _ => ⟨ROutcome.http 429 ⟨0, []⟩, ROutcome.exn⟩)
        "a" "t" none).attempts = 3 ∧
    (fetch_preview_url (fun _ => ⟨ROutcome.http 429 ⟨0, []⟩, ROutcome.exn⟩)
        "a" "t" none).sleeps = [1, 2, 4] := by
  have h := claim_C8_retry_exhaustion (fun _ => ⟨ROutcome.http 429 ⟨0, []⟩, ROutcome.exn⟩)
    "a" "t" none
    (fun i _ => Or.inr ⟨429, ⟨0, []⟩, rfl, Or.inr rfl⟩)
  refine ⟨h.1, h.2.1, ?_⟩
  rw [h.2.2]
  norm_num [sleepFor]

/-! ### `analyze_audio_file` (logic.py lines 198-226) -/

/-- Outcome of `librosa.load` and the numeric pipeline inside the analyzer's
`try`: the decoded signal's derived quantities on success, or the exception
kind the bare `except` catches (`failDecode`: the bytes cannot be decoded;
`failAnalysis`: internal numeric failure). -/
inductive AudioLoad where
  | failDecode
  | failAnalysis
  | ok (tempo : ℚ) (chroma : Fin 12 → List ℚ) (rms : List ℚ)

/-- The `{bpm, key, energy}` dict returned by `analyze_audio_file`. -/
structure AnalysisOut where
  bpm : ℚ
  key : String
  energy : ℚ

/-- `np.mean` of the RMS frame values. -/
def listMean (l : List ℚ) : ℚ := l.sum / l.length

/-- logic.py `analyze_audio_file`: on success, the normalized beat-track
tempo, the Camelot key from the chromagram, and the mean RMS scaled by 100 and
rounded to one decimal; ANY internal exception is caught by the function's own
`except` and mapped to the sentinel `{bpm: 0, key: "???", energy: 0}` — note
the key sentinel is `"???"` (not `"?"`) and no status field is set. -/
def analyze_audio_file : AudioLoad → AnalysisOut
  | .failDecode => ⟨0, "???", 0⟩
  | .failAnalysis => ⟨0, "???", 0⟩
  | .ok tempo chroma rms =>
    ⟨normalize_bpm tempo, chroma_to_key chroma, pyRound1 (listMean rms * 100)⟩

/-! ### `process_track` (logic.py lines 228-284) -/

/-- Outcome of the preview download `session.get(preview_url)` together with
reading its body: an exception (caught by the inner `except`, logged as
`Analysis Failed`) or a completed response with a status code. -/
inductive DOutcome where
  | exn
  | resp (status : ℕ)

/-- The external world one `process_track` call interacts with. -/
structure Env where
  soundnet : Option SResp
  preview : ℕ → AttemptW
  download : DOutcome
  audio : AudioLoad

/-- `track_metadata['artist']` / `['name']` (present on well-formed input). -/
def strOf (d : Dict) (k : String) : String :=
  match d k with
  | some (Value.str s) => s
  | _ => ""

/-- `track_metadata.get('duration_ms')`. -/
def durOf (d : Dict) : Option ℚ :=
  match d "duration_ms" with
  | some (Value.num q) => some q
  | _ => none

/-- logic.py `process_track`: SoundNet first; else locate a preview (miss →
`no_preview`); else download (exception → `error`, non-200 → fall through to
`failed_download`); a 200 download is analyzed and always reported with
status `analyzed_audio`, even when the analyzer returned its failure
sentinel. -/
def process_track (env : Env) (track : Dict) : Dict :=
  match fetch_soundnet env.soundnet with
  | some d =>
    dmerge track [("bpm", Value.num d.bpm), ("key", Value.str d.key),
                  ("energy", Value.num d.energy), ("source", Value.str d.source)]
  | none =>
    match (fetch_preview_url env.preview (strOf track "artist")
        (strOf track "name") (durOf track)).url with
    | none => dmerge track [("bpm", Value.num 0), ("status", Value.str "no_preview")]
    | some _ =>
      match env.download with
      | .exn =>
        dmerge track [("bpm", Value.num 0), ("key", Value.str "?"),
                      ("energy", Value.num 0), ("status", Value.str "error")]
      | .resp code =>
        if code = 200 then
          dmerge track [("bpm", Value.num (analyze_audio_file env.audio).bpm),
                        ("key", Value.str (analyze_audio_file env.audio).key),
                        ("energy", Value.num (analyze_audio_file env.audio).energy),
                        ("status", Value.str "analyzed_audio")]
        else
          dmerge track [("bpm", Value.num 0), ("key", Value.str "?"),
                        ("energy", Value.num 0), ("status", Value.str "failed_download")]

/-- Concrete environment: SoundNet misses (exception), the preview search
succeeds with one candidate, the download returns 200, and the analyzer fails
internally. -/
def envC2 : Env :=
  ⟨none, fun _ => ⟨ROutcome.http 200 ⟨1, [⟨"u", none⟩]⟩, ROutcome.exn⟩,
    DOutcome.resp 200, AudioLoad.failAnalysis⟩

/-- A minimal input track dict. -/
def trackC2 : Dict := fun k =>
  ([("artist", Value.str "a"), ("name", Value.str "t"),
    ("id", Value.str "x")] : List (String × Value)).lookup k

/-- C2 counterexample: with a downloaded preview whose analysis fails
internally, `process_track` reports status `"analyzed_audio"` (the success
status) — not any analysis-failed status — and the key sentinel `"???"`, not
`"?"`: the analyzer's own `except` swallows the failure before the caller
ever sees it. -/
theorem claim_C2_counterexample :
    process_track envC2 trackC2 "status" = some (Value.str "analyzed_audio") ∧
    process_track envC2 trackC2 "key" = some (Value.str "???") ∧
    process_track envC2 trackC2 "bpm" = some (Value.num 0) ∧
    process_track envC2 trackC2 "energy" = some (Value.num 0) ∧
    ("analyzed_audio" : String) ≠ "error" ∧ ("???" : String) ≠ "?" := by
  refine ⟨rfl, rfl, rfl, rfl, by decide, by decide⟩

/-- C2 (amended): analyzer failures are swallowed by `analyze_audio_file`
itself, which returns the sentinel `{bpm: 0, key: "???", energy: 0}`; the
resolver then reports these values under the SUCCESS status
`"analyzed_audio"`.  Only an exception in the download/dispatch step itself is
caught by `process_track`'s handler and mapped to status `"error"` with
`bpm = 0`, `key = "?"`, `energy = 0`.  In neither case does anything
propagate as a crash (the embedding is total). -/
theorem claim_C2_analysis_failure (env : Env) (track : Dict)
    (hsn : fetch_soundnet env.soundnet = none)
    (u : String)
    (hurl : (fetch_preview_url env.preview (strOf track "artist")
      (strOf track "name") (durOf track)).url = some u) :
    (env.download = DOutcome.resp 200 →
      (env.audio = AudioLoad.failDecode ∨ env.audio = AudioLoad.failAnalysis) →
      process_track env track "bpm" = some (Value.num 0) ∧
      process_track env track "key" = some (Value.str "???") ∧
      process_track env track "energy" = some (Value.num 0) ∧
      process_track env track "status" = some (Value.str "analyzed_audio")) ∧
    (env.download = DOutcome.exn →
      process_track env track "bpm" = some (Value.num 0) ∧
      process_track env track "key" = some (Value.str "?") ∧
      process_track env track "energy" = some (Value.num 0) ∧
      process_track env track "status" = some (Value.str "error")) := by
  constructor
  · intro hdl haud
    have hpt : process_track env track =
        dmerge track [("bpm", Value.num (analyze_audio_file env.audio).bpm),
          ("key", Value.str (analyze_audio_file env.audio).key),
          ("energy", Value.num (analyze_audio_file env.audio).energy),
          ("status", Value.str "analyzed_audio")] := by
      unfold process_track
      rw [hsn, hurl, hdl]
      rfl
    have hfail : analyze_audio_file env.audio = ⟨0, "???", 0⟩ := by
      rcases haud with h | h <;> rw [h] <;> rfl
    rw [hpt, hfail]
    exact ⟨rfl, rfl, rfl, rfl⟩
  · intro hdl
    have hpt : process_track env track =
        dmerge track [("bpm", Value.num 0), ("key", Value.str "?"),
          ("energy", Value.num 0), ("status", Value.str "error")] := by
      unfold process_track
      rw [hsn, hurl, hdl]
    rw [hpt]
    exact ⟨rfl, rfl, rfl, rfl⟩

/-- Witness for C2 at the concrete environment `envC2`. -/
theorem claim_C2_analysis_failure_witness :
    process_track envC2 trackC2 "bpm" = some (Value.num 0) ∧
    process_track envC2 trackC2 "key" = some (Value.str "???") ∧
    process_track envC2 trackC2 "energy" = some (Value.num 0) ∧
    process_track envC2 trackC2 "status" = some (Value.str "analyzed_audio") :=
  (claim_C2_analysis_failure envC2 trackC2 rfl "u" rfl).1 rfl (Or.inr rfl)

theorem normalize_bpm_128 : normalize_bpm 128 = 128 := by
  rw [normalize_bpm, dif_neg (by norm_num), doubleWhileBelow_done _ (by norm_num),
    halveWhileAbove_done (by norm_num)]
  norm_num [pyRound1, roundHalfEven]

/-- Input track that already carries a `bpm` entry (as every track built by
main.py does: `"bpm": 0, "key": "?", "energy": 0` are pre-populated). -/
def trackC4 : Dict := fun k =>
  ([("artist", Value.str "a"), ("name", Value.str "t"), ("id", Value.str "x"),
    ("bpm", Value.num 0)] : List (String × Value)).lookup k

/-- Environment where SoundNet answers with tempo 128. -/
def envC4 : Env :=
  ⟨some ⟨200, ⟨some 128, some "8A", some 60⟩⟩,
    fun _ => ⟨ROutcome.exn, ROutcome.exn⟩, DOutcome.exn, AudioLoad.failDecode⟩

/-- Environment where SoundNet misses and the preview search gets a non-200,
non-rate-limit response, so no preview is found. -/
def envC4b : Env :=
  ⟨none, fun _ => ⟨ROutcome.http 500 ⟨0, []⟩, ROutcome.exn⟩, DOutcome.exn,
    AudioLoad.failDecode⟩

/-- C4 counterexample: the result does NOT contain every input key/value pair
unchanged — the successful remote branch overwrites the input's `("bpm", 0)`
pair with the resolved tempo — and the result is not a fully populated
`AnalysisResult` either: the remote-success branch carries no `status` field
at all, and the no-preview branch carries no `key` field. -/
theorem claim_C4_counterexample :
    trackC4 "bpm" = some (Value.num 0) ∧
    process_track envC4 trackC4 "bpm" = some (Value.num 128) ∧
    (Value.num 128 : Value) ≠ Value.num 0 ∧
    process_track envC4 trackC4 "status" = none ∧
    process_track envC4b trackC4 "key" = none := by
  refine ⟨rfl, ?_, ?_, rfl, rfl⟩
  · have h : process_track envC4 trackC4 "bpm" =
        some (Value.num (normalize_bpm 128)) := rfl
    rw [h, normalize_bpm_128]
  · simp only [ne_eq, Value.num.injEq]
    norm_num

/-- C4 (amended): `process_track` is total (never raises) and every terminal
branch returns the input dict overridden only on the analysis-output keys:
every input pair whose key is not among `bpm`/`key`/`energy`/`status`/`source`
is preserved unchanged.  The failure branches encode the failure in `status`
(`no_preview` sets only `bpm = 0` and `status`; download exception sets
`status = "error"` and non-200 download sets `status = "failed_download"`,
both with `bpm = 0`, `key = "?"`, `energy = 0`), while the remote-success
branch sets no `status` of its own (its `source` field is `"soundnet"`) and
the analyzed branch always reports `status = "analyzed_audio"`. -/
theorem claim_C4_result_shape (env : Env) (track : Dict) :
    (∀ k, k ≠ "bpm" → k ≠ "key" → k ≠ "energy" → k ≠ "status" → k ≠ "source" →
      process_track env track k = track k) ∧
    (fetch_soundnet env.soundnet = none →
      (fetch_preview_url env.preview (strOf track "artist")
          (strOf track "name") (durOf track)).url = none →
      process_track env track "status" = some (Value.str "no_preview") ∧
      process_track env track "bpm" = some (Value.num 0) ∧
      process_track env track "key" = track "key" ∧
      process_track env track "energy" = track "energy") ∧
    (∀ u, fetch_soundnet env.soundnet = none →
      (fetch_preview_url env.preview (strOf track "artist")
          (strOf track "name") (durOf track)).url = some u →
      env.download = DOutcome.exn →
      process_track env track "status" = some (Value.str "error") ∧
      process_track env track "bpm" = some (Value.num 0) ∧
      process_track env track "key" = some (Value.str "?") ∧
      process_track env track "energy" = some (Value.num 0)) ∧
    (∀ u code, fetch_soundnet env.soundnet = none →
      (fetch_preview_url env.preview (strOf track "artist")
          (strOf track "name") (durOf track)).url = some u →
      env.download = DOutcome.resp code → code ≠ 200 →
      process_track env track "status" = some (Value.str "failed_download") ∧
      process_track env track "bpm" = some (Value.num 0) ∧
      process_track env track "key" = some (Value.str "?") ∧
      process_track env track "energy" = some (Value.num 0)) ∧
    (∀ u, fetch_soundnet env.soundnet = none →
      (fetch_preview_url env.preview (strOf track "artist")
          (strOf track "name") (durOf track)).url = some u →
      env.download = DOutcome.resp 200 →
      process_track env track "status" = some (Value.str "analyzed_audio")) ∧
    (∀ d, fetch_soundnet env.soundnet = some d →
      process_track env track "status" = track "status" ∧
      process_track env track "source" = some (Value.str d.source)) := by
  refine ⟨?_, ?_, ?_, ?_, ?_, ?_⟩
  · intro k hb hk he hs hsrc
    have hmem : ∀ (ps : List (String × Value)),
        (∀ p ∈ ps, p.1 = "bpm" ∨ p.1 = "key" ∨ p.1 = "energy" ∨
          p.1 = "status" ∨ p.1 = "source") →
        dmerge track ps k = track k := by
      intro ps hps
      apply dmerge_not_mem
      intro p hp
      rcases hps p hp with h | h | h | h | h <;> rw [h]
      exacts [Ne.symm hb, Ne.symm hk, Ne.symm he, Ne.symm hs, Ne.symm hsrc]
    unfold process_track
    cases fetch_soundnet env.soundnet with
    | some d =>
      exact hmem _ (by intro p hp; fin_cases hp <;> simp)
    | none =>
      cases (fetch_preview_url env.preview (strOf track "artist")
          (strOf track "name") (durOf track)).url with
      | none => exact hmem _ (by intro p hp; fin_cases hp <;> simp)
      | some u =>
        cases env.download with
        | exn => exact hmem _ (by intro p hp; fin_cases hp <;> simp)
        | resp code =>
          show (if code = 200 then (_ : Dict) else (_ : Dict)) k = track k
          by_cases hc : code = 200
          · rw [if_pos hc]
            exact hmem [("bpm", Value.num (analyze_audio_file env.audio).bpm),
              ("key", Value.str (analyze_audio_file env.audio).key),
              ("energy", Value.num (analyze_audio_file env.audio).energy),
              ("status", Value.str "analyzed_audio")]
              (by intro p hp; fin_cases hp <;> simp)
          · rw [if_neg hc]
            exact hmem [("bpm", Value.num 0), ("key", Value.str "?"),
              ("energy", Value.num 0), ("status", Value.str "failed_download")]
              (by intro p hp; fin_cases hp <;> simp)
  · intro hsn hurl
    have hpt : process_track env track =
        dmerge track [("bpm", Value.num 0), ("status", Value.str "no_preview")] := by
      unfold process_track
      rw [hsn, hurl]
    rw [hpt]
    refine ⟨rfl, rfl, ?_, ?_⟩ <;> rfl
  · intro u hsn hurl hdl
    have hpt : process_track env track =
        dmerge track [("bpm", Value.num 0), ("key", Value.str "?"),
          ("energy", Value.num 0), ("status", Value.str "error")] := by
      unfold process_track
      rw [hsn, hurl, hdl]
    rw [hpt]
    exact ⟨rfl, rfl, rfl, rfl⟩
  · intro u code hsn hurl hdl hcode
    have hpt : process_track env track =
        dmerge track [("bpm", Value.num 0), ("key", Value.str "?"),
          ("energy", Value.num 0), ("status", Value.str "failed_download")] := by
      unfold process_track
      rw [hsn, hurl, hdl]
      show (if code = 200 then _ else _) = _
      rw [if_neg hcode]
    rw [hpt]
    exact ⟨rfl, rfl, rfl, rfl⟩
  · intro u hsn hurl hdl
    have hpt : process_track env track =
        dmerge track [("bpm", Value.num (analyze_audio_file env.audio).bpm),
          ("key", Value.str (analyze_audio_file env.audio).key),
          ("energy", Value.num (analyze_audio_file env.audio).energy),
          ("status", Value.str "analyzed_audio")] := by
      unfold process_track
      rw [hsn, hurl, hdl]
      rfl
    rw [hpt]
    rfl
  · intro d hsn
    have hpt : process_track env track =
        dmerge track [("bpm", Value.num d.bpm), ("key", Value.str d.key),
          ("energy", Value.num d.energy), ("source", Value.str d.source)] := by
      unfold process_track
      rw [hsn]
    rw [hpt]
    exact ⟨rfl, rfl⟩

/-- Witness for C4: the preserved pass-through key `"name"` on the concrete
environment `envC4b`, and the no-preview branch facts there. -/
theorem claim_C4_result_shape_witness :
    process_track envC4b trackC4 "name" = trackC4 "name" ∧
    process_track envC4b trackC4 "status" = some (Value.str "no_preview") ∧
    process_track envC4b trackC4 "bpm" = some (Value.num 0) :=
  ⟨(claim_C4_result_shape envC4b trackC4).1 "name"
      (by decide) (by decide) (by decide) (by decide) (by decide),
    ((claim_C4_result_shape envC4b trackC4).2.1 rfl rfl).1,
    ((claim_C4_result_shape envC4b trackC4).2.1 rfl rfl).2.1⟩

theorem normalize_bpm_mem (t : ℚ) :
    normalize_bpm t = 0 ∨ (90 ≤ normalize_bpm t ∧ normalize_bpm t ≤ 180) := by
  by_cases h : t ≤ 0
  · exact Or.inl (normalize_bpm_nonpos h)
  · exact Or.inr (normalize_bpm_pos (not_le.mp h))

theorem fetch_soundnet_bpm {w : Option SResp} {d : SOut}
    (h : fetch_soundnet w = some d) : ∃ t, d.bpm = normalize_bpm t := by
  match w with
  | none => exact Option.noConfusion h
  | some r =>
    obtain ⟨st, tem, cam, en⟩ := r
    by_cases hst : st = 200
    · subst hst
      match tem with
      | some t =>
        refine ⟨t, ?_⟩
        have he : fetch_soundnet (some ⟨200, some t, cam, en⟩) =
            some (⟨normalize_bpm t, camelotOrUnknown cam, en.getD 50,
              "soundnet"⟩ : SOut) := rfl
        rw [he] at h
        obtain rfl := Option.some_inj.mp h
        rfl
      | none => exact Option.noConfusion h
    · have h0 : fetch_soundnet (some ⟨st, tem, cam, en⟩) = none := by
        show (if st = 200 then _ else none) = none
        rw [if_neg hst]
      rw [h0] at h
      exact Option.noConfusion h

/-- C9: every result of `process_track`, whichever strategy produced it,
carries a `bpm` field whose value is either 0 or in the canonical range
`[90, 180]`; in particular the remote-lookup path also passes the remote
service's raw tempo through `normalize_bpm`, not just the local
signal-analysis path. -/
theorem claim_C9_bpm_invariant (env : Env) (track : Dict) :
    (∃ b : ℚ, process_track env track "bpm" = some (Value.num b) ∧
      (b = 0 ∨ (90 ≤ b ∧ b ≤ 180))) ∧
    (∀ r t, env.soundnet = some r → r.status = 200 → r.data.tempo = some t →
      ∃ d, fetch_soundnet env.soundnet = some d ∧ d.bpm = normalize_bpm t) := by
  constructor
  · unfold process_track
    cases hsn : fetch_soundnet env.soundnet with
    | some d =>
      refine ⟨d.bpm, rfl, ?_⟩
      obtain ⟨t, ht⟩ := fetch_soundnet_bpm hsn
      rw [ht]
      exact normalize_bpm_mem t
    | none =>
      cases (fetch_preview_url env.preview (strOf track "artist")
          (strOf track "name") (durOf track)).url with
      | none => exact ⟨0, rfl, Or.inl rfl⟩
      | some u =>
        cases env.download with
        | exn => exact ⟨0, rfl, Or.inl rfl⟩
        | resp code =>
          show ∃ b, (if code = 200 then (_ : Dict) else (_ : Dict)) "bpm" =
            some (Value.num b) ∧ _
          by_cases hc : code = 200
          · rw [if_pos hc]
            refine ⟨(analyze_audio_file env.audio).bpm, rfl, ?_⟩
            cases env.audio with
            | failDecode => exact Or.inl rfl
            | failAnalysis => exact Or.inl rfl
            | ok tempo chroma rms => exact normalize_bpm_mem tempo
          · rw [if_neg hc]
            exact ⟨0, rfl, Or.inl rfl⟩
  · intro r t hr hst ht
    rw [hr]
    obtain ⟨st, tem, cam, en⟩ := r
    dsimp at hst ht
    subst hst
    subst ht
    exact ⟨_, rfl, rfl⟩

/-- Witness for C9: SoundNet answering tempo 128 passes through
`normalize_bpm`. -/
theorem claim_C9_bpm_invariant_witness :
    (∃ b : ℚ, process_track envC4 trackC4 "bpm" = some (Value.num b) ∧
      (b = 0 ∨ (90 ≤ b ∧ b ≤ 180))) ∧
    ∃ d, fetch_soundnet envC4.soundnet = some d ∧ d.bpm = normalize_bpm 128 :=
  ⟨(claim_C9_bpm_invariant envC4 trackC4).1,
    (claim_C9_bpm_invariant envC4 trackC4).2 ⟨200, ⟨some 128, some "8A", some 60⟩⟩
      128 rfl rfl rfl⟩

/-! ### `analyze_playlist` event stream (main.py lines 97-182) -/

/-- The NDJSON events yielded by the generator.  The `update` event's
human-readable `msg` text is elided; its `track` payload and `percent` are
kept. -/
inductive Event where
  | progress (msg : String)
  | update (track : Dict) (percent : ℕ)
  | done (msg : String)
  | error (msg : String)

/-- A playlist item's track object, as read by the parsing loop
(main.py lines 127-136). -/
structure SpTrack where
  id : String
  name : String
  artist : String
  duration_ms : ℚ
  image : Option String
  uri : String
  is_local : Bool

/-- The dict built for one parsed track (main.py lines 130-136). -/
def trackDict (t : SpTrack) : Dict := fun k =>
  ([("id", Value.str t.id), ("name", Value.str t.name),
    ("artist", Value.str t.artist), ("duration_ms", Value.num t.duration_ms),
    ("image", match t.image with | some s => Value.str s | none => Value.vnull),
    ("uri", Value.str t.uri), ("bpm", Value.num 0), ("key", Value.str "?"),
    ("energy", Value.num 0)] : List (String × Value)).lookup k

/-- `item.get('track')` may be `None` and local tracks are skipped
(`if not t or t.get('is_local'): continue`). -/
def parse_items (items : List (Option SpTrack)) : List Dict :=
  items.filterMap fun it =>
    it.bind fun t => if t.is_local then none else some (trackDict t)

/-- The empty dict (default for out-of-range list reads; never reached). -/
def emptyDict : Dict := fun _ => none

/-- The `for future in asyncio.as_completed(pending)` loop: one `update` per
completed track, in completion order, with
`percent = int(completed_count / total * 100)` — integer TRUNCATION. -/
def updateEvents (completion : List Dict) (total : ℕ) : List Event :=
  (List.range completion.length).map fun j =>
    Event.update (completion.getD j emptyDict) ((100 * (j + 1)) / total)

/-- The request body fields the generator reads. -/
structure AReq where
  playlist_link : Option String
  tracks : Option (List Dict)

/-- Mode B (`elif req.playlist_link`): two progress events — one before the
fetch, one (quoting the raw item count) before analysis — then the updates
and the final done event. -/
def modeB_events (items : List (Option SpTrack)) (completion : List Dict) :
    List Event :=
  Event.progress "Fetching playlist from Spotify..." ::
  Event.progress ("Found " ++ toString items.length ++ " tracks. Starting analysis...") ::
  (updateEvents completion (parse_items items).length ++
    [Event.done "Analysis Complete"])

/-- main.py `analyze_playlist`'s generator.  `req` is the request, `items` the
playlist items Spotify returns in Mode B, `completion` the per-track results
in the order `asyncio.as_completed` delivers them.  Mode A
(`if req.tracks and len(req.tracks) > 0`) emits a single progress event;
neither tracks nor link yields a single error event. -/
def analyze_playlist_events (req : AReq) (items : List (Option SpTrack))
    (completion : List Dict) : List Event :=
  match req.tracks with
  | some ts =>
    if 0 < ts.length then
      Event.progress ("Re-analyzing " ++ toString ts.length ++ " tracks...") ::
      (updateEvents completion ts.length ++ [Event.done "Analysis Complete"])
    else
      match req.playlist_link with
      | some _ => modeB_events items completion
      | none => [Event.error "No playlist link or tracks provided."]
  | none =>
    match req.playlist_link with
    | some _ => modeB_events items completion
    | none => [Event.error "No playlist link or tracks provided."]

def isUpdate : Event → Bool
  | .update _ _ => true
  | _ => false

def isDone : Event → Bool
  | .done _ => true
  | _ => false

def isProgressEvent : Event → Bool
  | .progress _ => true
  | _ => false

/-- The `percent` carried by an `update` event. -/
def percentOf : Event → Option ℕ
  | .update _ p => some p
  | _ => none

theorem updateEvents_countP_update (c : List Dict) (t : ℕ) :
    (updateEvents c t).countP isUpdate = c.length := by
  rw [updateEvents, List.countP_map]
  have h : (isUpdate ∘ fun j =>
      Event.update (c.getD j emptyDict) ((100 * (j + 1)) / t)) = fun _ => true := by
    funext j
    rfl
  rw [h, List.countP_true, List.length_range]

theorem updateEvents_countP_done (c : List Dict) (t : ℕ) :
    (updateEvents c t).countP isDone = 0 := by
  rw [updateEvents, List.countP_map]
  have h : (isDone ∘ fun j =>
      Event.update (c.getD j emptyDict) ((100 * (j + 1)) / t)) = fun _ => false := by
    funext j
    rfl
  rw [h, List.countP_false]
  rfl

theorem updateEvents_countP_prog (c : List Dict) (t : ℕ) :
    (updateEvents c t).countP isProgressEvent = 0 := by
  rw [updateEvents, List.countP_map]
  have h : (isProgressEvent ∘ fun j =>
      Event.update (c.getD j emptyDict) ((100 * (j + 1)) / t)) = fun _ => false := by
    funext j
    rfl
  rw [h, List.countP_false]
  rfl

theorem updateEvents_get (c : List Dict) (t j : ℕ) (hj : j < c.length) :
    (updateEvents c t).get? j =
      some (Event.update (c.getD j emptyDict) ((100 * (j + 1)) / t)) := by
  rw [updateEvents, List.get?_map, List.get?_range hj]
  rfl

theorem modeA_eq (ts : List Dict) (items : List (Option SpTrack))
    (completion : List Dict) (h : ts ≠ []) :
    analyze_playlist_events ⟨none, some ts⟩ items completion =
      Event.progress ("Re-analyzing " ++ toString ts.length ++ " tracks...") ::
      (updateEvents completion ts.length ++ [Event.done "Analysis Complete"]) := by
  show (if 0 < ts.length then
      Event.progress ("Re-analyzing " ++ toString ts.length ++ " tracks...") ::
      (updateEvents completion ts.length ++ [Event.done "Analysis Complete"])
    else _) = _
  rw [if_pos (List.length_pos.mpr h)]

theorem stream_getLast (x : Event) (l : List Event) (m : String) :
    (x :: (l ++ [Event.done m])).getLast? = some (Event.done m) := by
  rw [show x :: (l ++ [Event.done m]) = (x :: l) ++ [Event.done m] from rfl]
  exact List.getLast?_concat _

/-- A non-local playlist item used in the C5 scenario. -/
def spTrackC5 : SpTrack := ⟨"i", "n", "a", 1000, none, "u", false⟩

def itemsC5 : List (Option SpTrack) := [some spTrackC5, some spTrackC5, some spTrackC5]

def compC5 : List Dict := parse_items itemsC5

/-- C5 counterexample: for a playlist-link batch of 3 tracks the stream holds
TWO progress events before the updates (not a single one), and the second
update's percent is `int(2/3*100) = 66` — integer truncation — whereas
`round(2/3*100) = 67`, so `percentComplete` is not the claimed rounded
value. -/
theorem claim_C5_counterexample :
    (analyze_playlist_events ⟨some "L", none⟩ itemsC5 compC5).countP isProgressEvent = 2 ∧
    (2 : ℕ) ≠ 1 ∧
    ((analyze_playlist_events ⟨some "L", none⟩ itemsC5 compC5).get? 3).bind percentOf =
      some 66 ∧
    round ((2 : ℚ) / 3 * 100) = 67 ∧ (66 : ℤ) ≠ 67 := by
  refine ⟨by decide, by decide, by decide, ?_, by decide⟩
  rw [round_eq]
  norm_num

/-- C5 (amended): for a re-analysis batch of N tracks the stream is one
`progress` event, then exactly N `update` events (one per completed track, in
completion order), each carrying `percent = ⌊completedCount / total * 100⌋`
(integer truncation, not rounding) which is non-decreasing across the stream,
then exactly one `done` event; a playlist-link batch is identical except that
TWO `progress` events precede the updates. -/
theorem claim_C5_event_stream :
    (∀ (ts : List Dict) (items : List (Option SpTrack)) (completion : List Dict),
      ts ≠ [] → completion.length = ts.length →
      (analyze_playlist_events ⟨none, some ts⟩ items completion).countP isUpdate = ts.length ∧
      (analyze_playlist_events ⟨none, some ts⟩ items completion).countP isDone = 1 ∧
      (analyze_playlist_events ⟨none, some ts⟩ items completion).countP isProgressEvent = 1 ∧
      (∀ j, j < ts.length →
        ((analyze_playlist_events ⟨none, some ts⟩ items completion).get? (j + 1)).bind percentOf =
          some ((100 * (j + 1)) / ts.length)) ∧
      (∀ i j, i ≤ j →
        (100 * (i + 1)) / ts.length ≤ (100 * (j + 1)) / ts.length) ∧
      (analyze_playlist_events ⟨none, some ts⟩ items completion).getLast? =
        some (Event.done "Analysis Complete")) ∧
    (∀ (link : String) (items : List (Option SpTrack)) (completion : List Dict),
      completion.length = (parse_items items).length →
      (analyze_playlist_events ⟨some link, none⟩ items completion).countP isUpdate =
        (parse_items items).length ∧
      (analyze_playlist_events ⟨some link, none⟩ items completion).countP isDone = 1 ∧
      (analyze_playlist_events ⟨some link, none⟩ items completion).countP isProgressEvent = 2 ∧
      (analyze_playlist_events ⟨some link, none⟩ items completion).getLast? =
        some (Event.done "Analysis Complete")) := by
  constructor
  · intro ts items completion hne hlen
    rw [modeA_eq ts items completion hne]
    refine ⟨?_, ?_, ?_, ?_, ?_, ?_⟩
    · rw [List.countP_cons, List.countP_append, updateEvents_countP_update, hlen]
      rfl
    · rw [List.countP_cons, List.countP_append, updateEvents_countP_done]
      rfl
    · rw [List.countP_cons, List.countP_append, updateEvents_countP_prog]
      rfl
    · intro j hj
      have hlen2 : j < (updateEvents completion ts.length).length := by
        rw [updateEvents, List.length_map, List.length_range, hlen]
        exact hj
      have hlen3 : j < completion.length := by
        rw [hlen]
        exact hj
      rw [List.get?_cons_succ, List.get?_append hlen2,
        updateEvents_get completion ts.length j hlen3]
      rfl
    · intro i j hij
      exact Nat.div_le_div_right (Nat.mul_le_mul_left _ (by omega))
    · exact stream_getLast _ _ _
  · intro link items completion hlen
    have hB : analyze_playlist_events ⟨some link, none⟩ items completion =
        Event.progress "Fetching playlist from Spotify..." ::
        Event.progress ("Found " ++ toString items.length ++ " tracks. Starting analysis...") ::
        (updateEvents completion (parse_items items).length ++
          [Event.done "Analysis Complete"]) := rfl
    rw [hB]
    refine ⟨?_, ?_, ?_, ?_⟩
    · rw [List.countP_cons, List.countP_cons, List.countP_append,
        updateEvents_countP_update, hlen]
      rfl
    · rw [List.countP_cons, List.countP_cons, List.countP_append,
        updateEvents_countP_done]
      rfl
    · rw [List.countP_cons, List.countP_cons, List.countP_append,
        updateEvents_countP_prog]
      rfl
    · exact stream_getLast _ _ _

/-- Witness for C5 at a concrete 3-track batch in each mode. -/
theorem claim_C5_event_stream_witness :
    ((analyze_playlist_events ⟨none, some compC5⟩ [] compC5).countP isUpdate = 3 ∧
      (analyze_playlist_events ⟨none, some compC5⟩ [] compC5).countP isDone = 1) ∧
    ((analyze_playlist_events ⟨some "L", none⟩ itemsC5 compC5).countP isUpdate = 3 ∧
      (analyze_playlist_events ⟨some "L", none⟩ itemsC5 compC5).countP isProgressEvent = 2) := by
  have hA := (claim_C5_event_stream).1 compC5 [] compC5
    (List.length_pos.mp (by decide)) rfl
  have hB := (claim_C5_event_stream).2 "L" itemsC5 compC5 rfl
  exact ⟨⟨hA.1, hA.2.1⟩, ⟨hB.1, hB.2.2.1⟩⟩

/-! ### `bounded_process` concurrency (main.py lines 149-161)

The code creates `asyncio.Semaphore(4)` and each task runs
`async with sem: await asyncio.sleep(0.05); await process_track(...)`.
The interleaving of the event loop is modelled as a transition system: each
task is `waiting` (before `async with sem`), `staggering d` (holding a permit,
inside `asyncio.sleep(d)`), `running` (inside `process_track`) or `finished`
(permit released). -/

/-- Phase of one task of `bounded_process`. -/
inductive Phase where
  | waiting
  | staggering (delay : ℚ)
  | running
  | finished
deriving DecidableEq

/-- Scheduler state for a batch of `n` tasks sharing the permit pool. -/
structure CState (n : ℕ) where
  sem : ℕ
  phase : Fin n → Phase

/-- `asyncio.Semaphore(4)` fresh, every task still waiting. -/
def initState (n : ℕ) : CState n := ⟨4, fun _ => Phase.waiting⟩

/-- A task holds a permit exactly between acquire and release. -/
def holdsPermit : Phase → Bool
  | .staggering _ => true
  | .running => true
  | _ => false

/-- Number of tasks in flight (holding a permit). -/
def inFlight {n : ℕ} (s : CState n) : ℕ :=
  (List.finRange n).countP fun i => holdsPermit (s.phase i)

/-- One event-loop step of the batch: acquire a free permit and enter the
fixed 0.05 s stagger sleep; finish the sleep and start `process_track`; or
finish `process_track` and release the permit. -/
inductive CStep {n : ℕ} : CState n → CState n → Prop where
  | acquire (s : CState n) (i : Fin n) (hw : s.phase i = Phase.waiting)
      (hs : 0 < s.sem) :
      CStep s ⟨s.sem - 1, Function.update s.phase i (Phase.staggering 0.05)⟩
  | stagger (s : CState n) (i : Fin n) (d : ℚ)
      (hd : s.phase i = Phase.staggering d) :
      CStep s ⟨s.sem, Function.update s.phase i Phase.running⟩
  | finish (s : CState n) (i : Fin n) (hr : s.phase i = Phase.running) :
      CStep s ⟨s.sem + 1, Function.update s.phase i Phase.finished⟩

/-- States the batch can reach from the start. -/
def Reachable {n : ℕ} (s : CState n) : Prop :=
  Relation.ReflTransGen CStep (initState n) s

theorem countP_update_balance {n : ℕ} (f : Fin n → Phase) (i : Fin n)
    (v : Phase) (p : Phase → Bool) :
    (List.finRange n).countP (fun j => p (Function.update f i v j)) +
      (if p (f i) then 1 else 0) =
    (List.finRange n).countP (fun j => p (f j)) + (if p v then 1 else 0) := by
  have hperm : List.Perm (List.finRange n) (i :: (List.finRange n).erase i) :=
    List.perm_cons_erase (List.mem_finRange i)
  rw [List.Perm.countP_eq _ hperm, List.Perm.countP_eq _ hperm,
    List.countP_cons, List.countP_cons]
  have hcong : ((List.finRange n).erase i).countP
      (fun j => p (Function.update f i v j)) =
      ((List.finRange n).erase i).countP (fun j => p (f j)) := by
    apply List.countP_congr
    intro j hj
    have hne : j ≠ i :=
      (((List.nodup_finRange n).mem_erase_iff).mp hj).1
    rw [Function.update_noteq hne]
  rw [hcong, Function.update_same]
  omega

/-- The semaphore invariant holds initially. -/
theorem init_invariant (n : ℕ) :
    inFlight (initState n) + (initState n).sem = 4 ∧
      (∀ i d, (initState n).phase i = Phase.staggering d → d = 0.05) := by
  constructor
  · have h0 : inFlight (initState n) = 0 := by
      unfold inFlight
      have he : (fun i => holdsPermit ((initState n).phase i)) =
          fun _ : Fin n => false := by
        funext i
        rfl
      rw [he, List.countP_false]
      rfl
    rw [h0]
    rfl
  · intro i d hd
    exact absurd hd (fun h => Phase.noConfusion h)

theorem ite_false_nat : (if (false : Bool) = true then (1:ℕ) else 0) = 0 := rfl

theorem ite_true_nat : (if (true : Bool) = true then (1:ℕ) else 0) = 1 := rfl

/-- One step preserves the semaphore invariant. -/
theorem step_invariant {n : ℕ} {s s' : CState n} (hstep : CStep s s')
    (ihc : inFlight s + s.sem = 4)
    (ihd : ∀ i d, s.phase i = Phase.staggering d → d = 0.05) :
    inFlight s' + s'.sem = 4 ∧
      (∀ i d, s'.phase i = Phase.staggering d → d = 0.05) := by
  unfold inFlight at ihc
  cases hstep with
  | acquire i hw hs =>
    constructor
    · show (List.finRange n).countP
        (fun j => holdsPermit (Function.update s.phase i (Phase.staggering 0.05) j)) +
        (s.sem - 1) = 4
      have hb := countP_update_balance s.phase i (Phase.staggering 0.05) holdsPermit
      rw [hw, show holdsPermit Phase.waiting = false from rfl,
        show holdsPermit (Phase.staggering (0.05 : ℚ)) = true from rfl] at hb
      rw [ite_false_nat, ite_true_nat] at hb
      omega
    · intro j d hd
      dsimp only at hd
      by_cases hij : j = i
      · subst hij
        rw [Function.update_same] at hd
        injection hd with h'
        exact h'.symm
      · rw [Function.update_noteq hij] at hd
        exact ihd j d hd
  | stagger i d0 hd0 =>
    constructor
    · show (List.finRange n).countP
        (fun j => holdsPermit (Function.update s.phase i Phase.running j)) +
        s.sem = 4
      have hb := countP_update_balance s.phase i Phase.running holdsPermit
      rw [hd0, show holdsPermit (Phase.staggering d0) = true from rfl,
        show holdsPermit Phase.running = true from rfl] at hb
      rw [ite_true_nat] at hb
      omega
    · intro j d hd
      dsimp only at hd
      by_cases hij : j = i
      · subst hij
        rw [Function.update_same] at hd
        exact absurd hd (fun h => Phase.noConfusion h)
      · rw [Function.update_noteq hij] at hd
        exact ihd j d hd
  | finish i hr =>
    constructor
    · show (List.finRange n).countP
        (fun j => holdsPermit (Function.update s.phase i Phase.finished j)) +
        (s.sem + 1) = 4
      have hb := countP_update_balance s.phase i Phase.finished holdsPermit
      rw [hr, show holdsPermit Phase.running = true from rfl,
        show holdsPermit Phase.finished = false from rfl] at hb
      rw [ite_true_nat, ite_false_nat] at hb
      omega
    · intro j d hd
      dsimp only at hd
      by_cases hij : j = i
      · subst hij
        rw [Function.update_same] at hd
        exact absurd hd (fun h => Phase.noConfusion h)
      · rw [Function.update_noteq hij] at hd
        exact ihd j d hd

/-- The semaphore invariant in every reachable state. -/
theorem reachable_invariant {n : ℕ} {s : CState n} (h : Reachable s) :
    inFlight s + s.sem = 4 ∧
      (∀ i d, s.phase i = Phase.staggering d → d = 0.05) := by
  induction h with
  | refl => exact init_invariant n
  | tail hsteps hstep ih => exact step_invariant hstep ih.1 ih.2

/-- C10: in every reachable state of a batch, at most 4 tasks are in flight
(hold a permit), every stagger delay in the state is the fixed 0.05 s, and a
task can enter `running` (the `process_track` call) only from the staggering
sleep it performed after acquiring its permit. -/
theorem claim_C10_concurrency_bound :
    (∀ (n : ℕ) (s : CState n), Reachable s → inFlight s ≤ 4 ∧
      (∀ i d, s.phase i = Phase.staggering d → d = 0.05)) ∧
    (∀ (n : ℕ) (s s' : CState n) (i : Fin n), CStep s s' →
      s.phase i ≠ Phase.running → s'.phase i = Phase.running →
      ∃ d, s.phase i = Phase.staggering d) := by
  constructor
  · intro n s h
    obtain ⟨hc, hd⟩ := reachable_invariant h
    exact ⟨by omega, hd⟩
  · intro n s s' i hstep hnr hr
    cases hstep with
    | acquire j hw hs =>
      dsimp only at hr
      by_cases hij : i = j
      · subst hij
        rw [Function.update_same] at hr
        exact absurd hr (fun h => Phase.noConfusion h)
      · rw [Function.update_noteq hij] at hr
        exact absurd hr hnr
    | stagger j d hd =>
      dsimp only at hr
      by_cases hij : i = j
      · subst hij
        exact ⟨d, hd⟩
      · rw [Function.update_noteq hij] at hr
        exact absurd hr hnr
    | finish j hj =>
      dsimp only at hr
      by_cases hij : i = j
      · subst hij
        rw [Function.update_same] at hr
        exact absurd hr (fun h => Phase.noConfusion h)
      · rw [Function.update_noteq hij] at hr
        exact absurd hr hnr

/-- Witness for C10: the initial 5-task state is reachable and within the
bound, and a concrete stagger-completion step enters `running` from the
0.05 s sleep. -/
theorem claim_C10_concurrency_bound_witness :
    inFlight (initState 5) ≤ 4 ∧
    ∃ d, (⟨4, fun _ => Phase.staggering 0.05⟩ : CState 1).phase 0 =
      Phase.staggering d :=
  ⟨(claim_C10_concurrency_bound.1 5 (initState 5) Relation.ReflTransGen.refl).1,
    claim_C10_concurrency_bound.2 1 ⟨4, fun _ => Phase.staggering 0.05⟩
      ⟨4, Function.update (fun _ : Fin 1 => Phase.staggering 0.05) 0 Phase.running⟩
      0
      (CStep.stagger ⟨4, fun _ => Phase.staggering 0.05⟩ 0 0.05 rfl)
      (fun h => Phase.noConfusion h)
      (Function.update_same 0 Phase.running
        (fun _ : Fin 1 => Phase.staggering 0.05))⟩
